import Mathlib

/-!
Shallow embedding of `src/app.py` (Ghost Fund savings backend) and proofs
about its tokenizer, classifier, amount extractor, contact resolution,
ledger merge engine and weekly bucketing.

Modelling conventions, used throughout:

* Python `str` values are modelled as `String` / `List Char`.
* The Python regex class `\s` and `str.strip()` strip ASCII whitespace here;
  Python additionally treats a few rare Unicode spaces as whitespace, which
  never occur in the grammars at issue (the tokenizer even replaces the one
  relevant one, U+202F, by a plain space before matching).  Likewise `\d`
  and `str.lower()` are modelled on their ASCII fragment; the currency
  grammar's own character class is the explicit ASCII `[0-9]`.
* Python regex matching for the two concrete patterns of the source
  (`date_prefix` and `currency_amount_pattern`) is implemented directly.
  Both patterns are deterministic: every backtracking opportunity in them
  is vacuous (the alternatives' first characters and the character classes
  adjacent to the greedy quantifiers are disjoint), so maximal-munch
  scanning reproduces `re` semantics exactly.
* `pandas`/Excel missing values (`NaN` cells) are modelled as `none` in
  `Option String` fields.  Reading a sheet back turns empty-string cells
  into missing values (pandas' default `na_values` include the empty
  string), which the persistence model below makes explicit.
* Recursions that Python expresses as `while` loops or position scans are
  given an explicit fuel that provably/visibly covers the loop length, so
  every definition evaluates by kernel reduction.
-/

namespace GhostFund

/-- ASCII whitespace, the model of Python's `\s` and of `str.strip()`. -/
def isPySpace (c : Char) : Bool :=
  c == ' ' || c == '\t' || c == '\n' || c == '\r' || c == '\x0b' || c == '\x0c'

/-- ASCII lowercasing of a single character, the model of `str.lower()`
(and of `re.IGNORECASE` folding) on the texts at issue. -/
def lowerChar (c : Char) : Char :=
  match c with
  | 'A' => 'a' | 'B' => 'b' | 'C' => 'c' | 'D' => 'd' | 'E' => 'e' | 'F' => 'f'
  | 'G' => 'g' | 'H' => 'h' | 'I' => 'i' | 'J' => 'j' | 'K' => 'k' | 'L' => 'l'
  | 'M' => 'm' | 'N' => 'n' | 'O' => 'o' | 'P' => 'p' | 'Q' => 'q' | 'R' => 'r'
  | 'S' => 's' | 'T' => 't' | 'U' => 'u' | 'V' => 'v' | 'W' => 'w' | 'X' => 'x'
  | 'Y' => 'y' | 'Z' => 'z'
  | c => c

/-- ASCII uppercasing of a single character, the model of `str.upper()`. -/
def upperChar (c : Char) : Char :=
  match c with
  | 'a' => 'A' | 'b' => 'B' | 'c' => 'C' | 'd' => 'D' | 'e' => 'E' | 'f' => 'F'
  | 'g' => 'G' | 'h' => 'H' | 'i' => 'I' | 'j' => 'J' | 'k' => 'K' | 'l' => 'L'
  | 'm' => 'M' | 'n' => 'N' | 'o' => 'O' | 'p' => 'P' | 'q' => 'Q' | 'r' => 'R'
  | 's' => 'S' | 't' => 'T' | 'u' => 'U' | 'v' => 'V' | 'w' => 'W' | 'x' => 'X'
  | 'y' => 'Y' | 'z' => 'Z'
  | c => c

/-- Python `text.strip()` on a character list. -/
def stripChars (l : List Char) : List Char :=
  ((l.dropWhile isPySpace).reverse.dropWhile isPySpace).reverse

/-- Python `text.strip()` on a `String`. -/
def pyStrip (s : String) : String := ⟨stripChars s.data⟩

/-- Python `text.lower()` on a `String` (ASCII fragment, see header). -/
def lowerStr (s : String) : String := ⟨s.data.map lowerChar⟩

/-- Python `text.upper()` on a `String` (ASCII fragment). -/
def upperStr (s : String) : String := ⟨s.data.map upperChar⟩

/-- Value of a digit string (most significant digit first). -/
def digitsVal (l : List Char) : Nat :=
  l.foldl (fun a c => a * 10 + (c.toNat - 48)) 0

/-- Models `re.fullmatch(r"\d+", s)` as a Boolean: one or more digits and nothing
else. -/
def fullmatchDigits (l : List Char) : Bool :=
  !l.isEmpty && l.all Char.isDigit

/-- Substring containment, the model of Python's `needle in haystack`. -/
def containsSub (needle haystack : List Char) : Bool :=
  decide (needle <:+: haystack)

/-! ## The currency amount grammar

`currency_amount_pattern` from `app.py`:

```
(?: (tk|taka|bdt|৳)\.?\s*([0-9][0-9,]*) ) | (?: ([0-9][0-9,]*)\s*(tk|taka|bdt|৳)\.? )
```

compiled with `re.IGNORECASE | re.VERBOSE` and consumed with `finditer`
(leftmost, non-overlapping matches).  The functions below return, for each
match, the text of the number group (group 2 of the first alternative or
group 3 of the second) together with the remainder of the input after the
whole match.  Determinism notes: the four currency tokens are pairwise
prefix-incompatible after case folding, at most one alternative can start
at any position (one starts with a letter or `৳`, the other with a digit),
and the greedy `[0-9,]*`/`\s*` runs stop at characters no continuation can
consume, so no backtracking can change the outcome. -/

/-- Match a literal ASCII-lowercase pattern case-insensitively at the head
of the input; returns the remainder. -/
def matchLit : List Char → List Char → Option (List Char)
  | [], cs => some cs
  | _ :: _, [] => none
  | p :: ps, c :: cs => if p == lowerChar c then matchLit ps cs else none

/-- Match one of the currency tokens `tk|taka|bdt|৳` (case-insensitively)
at the head of the input; returns the remainder. -/
def tokenRest (cs : List Char) : Option (List Char) :=
  (matchLit ['t', 'k'] cs).orElse fun _ =>
  (matchLit ['t', 'a', 'k', 'a'] cs).orElse fun _ =>
  (matchLit ['b', 'd', 't'] cs).orElse fun _ =>
  matchLit ['৳'] cs

/-- Consume the optional dot of `\.?`. -/
def skipDot : List Char → List Char
  | '.' :: cs => cs
  | cs => cs

/-- Character class `[0-9,]`. -/
def digitOrComma (c : Char) : Bool := c.isDigit || c == ','

/-- Match `[0-9][0-9,]*` at the head; returns the matched number text and
the remainder. -/
def matchNum (cs : List Char) : Option (List Char × List Char) :=
  match cs with
  | c :: tl =>
    if c.isDigit then some (c :: tl.takeWhile digitOrComma, tl.dropWhile digitOrComma)
    else none
  | [] => none

/-- First alternative `(tk|taka|bdt|৳)\.?\s*([0-9][0-9,]*)`. -/
def matchAltA (cs : List Char) : Option (List Char × List Char) :=
  match tokenRest cs with
  | some r => matchNum ((skipDot r).dropWhile isPySpace)
  | none => none

/-- Second alternative `([0-9][0-9,]*)\s*(tk|taka|bdt|৳)\.?`. -/
def matchAltB (cs : List Char) : Option (List Char × List Char) :=
  match matchNum cs with
  | some (num, r) =>
    match tokenRest (r.dropWhile isPySpace) with
    | some r2 => some (num, skipDot r2)
    | none => none
  | none => none

/-- One attempt of `currency_amount_pattern` at the current position. -/
def matchCurrencyAt (cs : List Char) : Option (List Char × List Char) :=
  (matchAltA cs).orElse fun _ => matchAltB cs

/-- Position scan of `finditer`: slide right one character on failure,
resume after the match on success.  The fuel bounds the number of steps;
each step either fails (input shrinks by one) or matches at least one
character (input shrinks by at least one), so fuel = input length is
always enough. -/
def finditerAux : Nat → List Char → List (List Char)
  | 0, _ => []
  | _ + 1, [] => []
  | n + 1, c :: cs =>
    match matchCurrencyAt (c :: cs) with
    | some (num, rest) => num :: finditerAux n rest
    | none => finditerAux n cs

/-- All number-group texts of the non-overlapping matches of
`currency_amount_pattern` in `text`, leftmost first. -/
def currency_finditer (text : String) : List (List Char) :=
  finditerAux text.data.length text.data

/-- Models `re.sub(r"[^\d]", "", num_str)` followed by `int(...)`: strip the
thousands separators and parse.  The digit string is never empty (the
group starts with `[0-9]`), so the source's `ValueError` branch is dead. -/
def parseCleanNum (num : List Char) : Nat :=
  digitsVal (num.filter Char.isDigit)

/-- Embeds `is_saving_message` from `app.py`: skip weekly-total announcements,
accept currency-tagged amounts, accept bare numeric messages. -/
def is_saving_message (text : String) : Bool :=
  if text = "" then false
  else
    let lower := stripChars (text.data.map lowerChar)
    if containsSub "weekly ghost fund".data lower then false
    else if !(currency_finditer text).isEmpty then true
    else if fullmatchDigits lower then true
    else false

/-- Embeds `extract_amount` from `app.py`: sum all currency-tagged amounts; if
none, accept a purely numeric message; otherwise no amount. -/
def extract_amount (text : String) : Option Nat :=
  if text = "" then none
  else
    let amounts := (currency_finditer text).map parseCleanNum
    if !amounts.isEmpty then some amounts.sum
    else
      let stripped := stripChars text.data
      if fullmatchDigits stripped then some (digitsVal stripped)
      else none

/-- Embeds `normalize_phone` from `app.py`: `re.sub(r"[^\d+]", "", phone)` — keep
digits and every `+`, wherever it occurs. -/
def normalize_phone (phone : String) : String :=
  if phone = "" then ""
  else ⟨phone.data.filter fun c => c.isDigit || c == '+'⟩

/-! ## The chat log tokenizer

`date_prefix` from `app.py`:

```
^(\d{1,2}/\d{1,2}/\d{2}),\s+(\d{1,2}:\d{2}\s*[APMapm]{2}) - (.*)$
```

applied with `.match` to every (cleaned) line.  `\d{1,2}` followed by a
non-digit literal is deterministic: when two digits are available the
one-digit backtrack would place the literal on a digit and fail, so
greedy-then-check is exact. -/

/-- Match `\d{1,2}` followed by the literal `sep`; returns the digit text
and the remainder after the separator. -/
def matchD12Sep (sep : Char) (cs : List Char) : Option (List Char × List Char) :=
  match cs with
  | a :: b :: c :: rest =>
    if a.isDigit && b.isDigit && c == sep then some ([a, b], rest)
    else if a.isDigit && b == sep then some ([a], c :: rest)
    else none
  | [a, b] => if a.isDigit && b == sep then some ([a], []) else none
  | _ => none

/-- Match exactly two digits; returns them and the remainder. -/
def matchDigits2 (cs : List Char) : Option (List Char × List Char) :=
  match cs with
  | a :: b :: rest => if a.isDigit && b.isDigit then some ([a, b], rest) else none
  | _ => none

/-- Character class `[APMapm]`. -/
def isAmpmChar (c : Char) : Bool :=
  c == 'A' || c == 'P' || c == 'M' || c == 'a' || c == 'p' || c == 'm'

/-- The final `(.*)$` group of `date_prefix`: `.` does not match `\n`, and
`$` also matches just before a string-final newline, so the group is the
remainder minus an optional final `\n`, provided no other `\n` occurs. -/
def matchRestGroup (cs : List Char) : Option (List Char) :=
  if cs.contains '\n' then
    if cs.getLast? == some '\n' && !(cs.dropLast.contains '\n') then some cs.dropLast
    else none
  else some cs

/-- Models `date_prefix.match(line)`: on success returns the three groups
(date, time, rest).  The time group includes the `\s*` run preceding the
two `[APMapm]` characters, as in the source pattern. -/
def date_prefix_match (cs : List Char) : Option (List Char × List Char × List Char) := do
  let (d1, r1) ← matchD12Sep '/' cs
  let (d2, r2) ← matchD12Sep '/' r1
  let (yy, r3) ← matchDigits2 r2
  let r4 ← match r3 with
    | ',' :: t => some t
    | _ => none
  let sp1 := r4.takeWhile isPySpace
  if sp1.isEmpty then none
  else
    let r5 := r4.dropWhile isPySpace
    let (h, r6) ← matchD12Sep ':' r5
    let (mm, r7) ← matchDigits2 r6
    let sp2 := r7.takeWhile isPySpace
    let r8 := r7.dropWhile isPySpace
    match r8 with
    | a :: b :: r9 =>
      if isAmpmChar a && isAmpmChar b then
        match r9 with
        | ' ' :: '-' :: ' ' :: r10 =>
          (matchRestGroup r10).map fun rest =>
            (d1 ++ '/' :: d2 ++ '/' :: yy,
             h ++ ':' :: mm ++ sp2 ++ [a, b],
             rest)
        | _ => none
      else none
    | _ => none

/-- A parsed WhatsApp message, as built by `parse_messages_from_string`. -/
structure Message where
  date : String
  time : String
  sender : Option String
  text : String
deriving DecidableEq

/-- Per-line cleanup of the source:
`raw.rstrip("\n").replace(" ", " ").replace("‎", "")`. -/
def cleanLine (raw : List Char) : List Char :=
  (((raw.reverse.dropWhile (· == '\n')).reverse).map
      fun c => if c == ' ' then ' ' else c).filter (· != '‎')

/-- Build the fresh message opened by a matching line: split `rest` on the
first `": "` into sender and text; an absent or empty left part leaves the
sender `none` (Python's `sender.strip() if sender else None` with `""`
falsy). -/
def splitSenderText : List Char → Option (List Char × List Char)
  | [] => none
  | ':' :: ' ' :: rest => some ([], rest)
  | c :: rest => (splitSenderText rest).map fun p => (c :: p.1, p.2)

/-- The message record opened by a line whose `date_prefix` groups are
`(d, t, rest)`. -/
def openMessage (d t rest : List Char) : Message :=
  let (sender, msgText) :=
    match splitSenderText rest with
    | some (s, m) => (some s, m)
    | none => (none, rest)
  { date := ⟨stripChars d⟩
    time := upperStr ⟨stripChars t⟩
    sender := match sender with
      | some s => if s.isEmpty then none else some ⟨stripChars s⟩
      | none => none
    text := ⟨stripChars msgText⟩ }

/-- Append a continuation line to the open message:
`current["text"] += " " + line.strip()`. -/
def appendCont (m : Message) (line : List Char) : Message :=
  { m with text := m.text ++ " " ++ ⟨stripChars line⟩ }

/-- The tokenizer loop of `parse_messages_from_string`: `cur` is the open
message, finalized when the next matching line appears or input ends;
continuation lines extend it (and are dropped when no message is open). -/
def parseLinesAux : Option Message → List String → List Message
  | cur, [] => cur.toList
  | cur, raw :: ls =>
    let line := cleanLine raw.data
    match date_prefix_match line with
    | some (d, t, rest) => cur.toList ++ parseLinesAux (some (openMessage d t rest)) ls
    | none => parseLinesAux (cur.map fun m => appendCont m line) ls

/-- Python `str.splitlines()` restricted to the `\n`, `\r\n` and `\r`
terminators (the exotic Unicode line boundaries Python also accepts play
no role in the export format). -/
def pySplitlinesAux : List Char → List Char → List String
  | [], acc => if acc.isEmpty then [] else [⟨acc.reverse⟩]
  | '\r' :: '\n' :: rest, acc => ⟨acc.reverse⟩ :: pySplitlinesAux rest []
  | '\r' :: rest, acc => ⟨acc.reverse⟩ :: pySplitlinesAux rest []
  | '\n' :: rest, acc => ⟨acc.reverse⟩ :: pySplitlinesAux rest []
  | c :: rest, acc => pySplitlinesAux rest (c :: acc)

/-- Python `text.splitlines()`. -/
def pySplitlines (text : String) : List String := pySplitlinesAux text.data []

/-- Embeds `parse_messages_from_string` from `app.py`. -/
def parse_messages_from_string (text : String) : List Message :=
  parseLinesAux none (pySplitlines text)

/-! ## Date and time parsing (`strptime`-style, strict)

`%m/%d/%y` parsing backs both the merge engine's cutoff comparison and the
temporal aggregator.  A parsed date is represented by its civil day number
(days since 1970-01-01); instants carry microseconds since that epoch on
the Asia/Dhaka wall clock (the zone has a fixed UTC offset in the period
at issue, and Python's aware-datetime arithmetic on a fixed-offset zone is
plain wall-clock arithmetic, so a linear integer timeline is faithful).
`%y` maps `00..68` to `20xx` and `69..99` to `19xx`.  `strptime`'s `%m`,
`%d` and `%I` sub-patterns accept one or two digits followed by the next
literal and then range-check (the alternation `1[0-2]|0[1-9]|[1-9]` etc.
accepts exactly the strings that pass the range check, as the one-digit
backtrack would land the following literal on a digit); `%M` accepts
`[0-5]\d|\d`; a whitespace in the format matches `\s+`. -/

/-- Two-digit-year pivot of `%y`. -/
def parseYY (n : Nat) : Int := if n ≤ 68 then 2000 + n else 1900 + n

/-- Gregorian leap year. -/
def isLeap (y : Int) : Bool := (y % 4 == 0 && y % 100 != 0) || y % 400 == 0

/-- Days in a month (0 for an invalid month number). -/
def daysInMonth (y : Int) (m : Nat) : Nat :=
  match m with
  | 1 => 31 | 2 => if isLeap y then 29 else 28 | 3 => 31 | 4 => 30
  | 5 => 31 | 6 => 30 | 7 => 31 | 8 => 31 | 9 => 30 | 10 => 31
  | 11 => 30 | 12 => 31 | _ => 0

/-- Civil day number of a Gregorian date, with day 0 = 1970-01-01
(Howard Hinnant's `days_from_civil`, with floor division). -/
def days_from_civil (y : Int) (m d : Nat) : Int :=
  let y' : Int := if m ≤ 2 then y - 1 else y
  let era : Int := y' / 400
  let yoe : Int := y' % 400
  let mp : Int := ((m : Int) + 9) % 12
  let doy : Int := (153 * mp + 2) / 5 + ((d : Int) - 1)
  let doe : Int := yoe * 365 + yoe / 4 - yoe / 100 + doy
  era * 146097 + doe - 719468

/-- Match the `%m/%d/%y` portion at the head of the input; returns the
civil day number and the remainder after the year. -/
def matchDateMDY (cs : List Char) : Option (Int × List Char) := do
  let (mcs, r1) ← matchD12Sep '/' cs
  let (dcs, r2) ← matchD12Sep '/' r1
  let (ycs, r3) ← matchDigits2 r2
  let mo := digitsVal mcs
  let dd := digitsVal dcs
  let y := parseYY (digitsVal ycs)
  if 1 ≤ mo && mo ≤ 12 && 1 ≤ dd && dd ≤ daysInMonth y mo then
    some (days_from_civil y mo dd, r3)
  else none

/-- Models `pd.to_datetime(s, format="%m/%d/%y", errors="coerce")` on a scalar
string: the civil day number, or `none` (`NaT`) when the string does not
match exactly. -/
def parseDateNum (s : String) : Option Int := do
  let (d, r) ← matchDateMDY s.data
  if r.isEmpty then some d else none

/-- Match `%M` (`[0-5]\d|\d`); returns the minute value and remainder. -/
def matchMinute (cs : List Char) : Option (Nat × List Char) :=
  match cs with
  | a :: b :: rest =>
    if a.isDigit && b.isDigit && a ≤ '5' then some (digitsVal [a, b], rest)
    else if a.isDigit then some (digitsVal [a], b :: rest)
    else none
  | [a] => if a.isDigit then some (digitsVal [a], []) else none
  | [] => none

/-- Match `%I:%M %p` against the whole remaining input; returns minutes
since midnight. -/
def matchTime12 (cs : List Char) : Option Nat := do
  let (hcs, r1) ← matchD12Sep ':' cs
  let (mm, r2) ← matchMinute r1
  let sp := r2.takeWhile isPySpace
  if sp.isEmpty then none
  else
    let pm ← match (r2.dropWhile isPySpace).map lowerChar with
      | ['a', 'm'] => some false
      | ['p', 'm'] => some true
      | _ => none
    let h := digitsVal hcs
    if 1 ≤ h && h ≤ 12 && mm ≤ 59 then
      let hour24 := if pm then (if h = 12 then 12 else h + 12)
                    else (if h = 12 then 0 else h)
      some (hour24 * 60 + mm)
    else none

/-- Models `pd.to_datetime(s, format="%I:%M %p", errors="coerce").dt.time` on a
scalar: minutes since midnight, or `none` (`NaT`). -/
def parseTimeMin (s : String) : Option Nat := matchTime12 s.data

/-- Microseconds per day. -/
def usPerDay : Int := 86400000000

/-- Models `datetime.strptime(s, "%m/%d/%y %I:%M %p")` over the whole string:
microseconds since the epoch on the Dhaka wall clock. -/
def parseBDMicros (s : String) : Option Int := do
  let (dnum, r3) ← matchDateMDY s.data
  let sp := r3.takeWhile isPySpace
  if sp.isEmpty then none
  else
    let mins ← matchTime12 (r3.dropWhile isPySpace)
    some (dnum * usPerDay + (mins : Int) * 60000000)

/-- Embeds `to_bd_datetime` from `app.py`: parse `f"{date_str} {time_str}"`, and
fall back to the current instant when unparsable.  The source's
intermediate `pd.to_datetime(..., errors="coerce")` retry accepts some
additional free-form formats before giving up; it is modelled as also
failing, so unparsable strings fall back to `now` exactly as in the
source. -/
def to_bd_datetime (dateStr timeStr : String) (now : Int) : Int :=
  match parseBDMicros (dateStr ++ " " ++ timeStr) with
  | some t => t
  | none => now

/-! ## Weekly ranges (Friday → Thursday, Asia/Dhaka) -/

/-- Python `dt.weekday()` (Monday = 0) of the calendar day containing the
instant `t`; day 0 (1970-01-01) was a Thursday (= 3). -/
def pyWeekday (t : Int) : Int := (t / usPerDay + 3) % 7

/-- Models `dt.replace(hour=23, minute=59, second=59, microsecond=999999)`. -/
def endOfDay (t : Int) : Int := t / usPerDay * usPerDay + (usPerDay - 1)

/-- Embeds `get_bd_week_range` from `app.py`: the enclosing Friday-00:00:00 to
Thursday-23:59:59.999999 week of `now`. -/
def get_bd_week_range (now : Int) : Int × Int :=
  let day := now / usPerDay
  let wd := (day + 3) % 7
  let delta := (3 - wd) % 7
  let weekEndDay := day + delta
  ((weekEndDay - 6) * usPerDay, weekEndDay * usPerDay + (usPerDay - 1))

/-- The `while cursor <= current_week_end` loop of `build_user_details`,
with fuel; `week_ranges` below supplies fuel that exactly covers the
iteration count, so this is the loop itself. -/
def weekRangesAux : Nat → Int → Int → List (Int × Int)
  | 0, _, _ => []
  | n + 1, cursor, e =>
    if cursor ≤ e then
      (cursor, endOfDay (cursor + 6 * usPerDay)) :: weekRangesAux n (cursor + 7 * usPerDay) e
    else []

/-- All week ranges from `s` (a week start) up to and including the week
ending at `e`, oldest first. -/
def week_ranges (s e : Int) : List (Int × Int) :=
  weekRangesAux ((e - s) / (7 * usPerDay) + 1).toNat s e

/-- A ledger row as read from the `Data` sheet: `none` models a missing
(`NaN`) cell. -/
structure LedgerRow where
  Date : Option String
  Time : Option String
  Name : Option String
  Phone : Option String
  Amount : Int
  howSaved : Option String
deriving DecidableEq

/-- A week bucket of the per-member report (`stop` is the inclusive end
instant; `end` is a reserved word).  A record is the triple
(instant, amount, howSaved). -/
structure WeekBucket where
  start : Int
  stop : Int
  records : List (Int × Int × String)
  total : Int
deriving DecidableEq

/-- The row filter of `build_user_details`:
`(df["Phone"] == identifier) | (df["Name"].str.lower() == identifier.lower())`
after both columns are `fillna("")`. -/
def userMask (identifier : String) (r : LedgerRow) : Bool :=
  r.Phone.getD "" == identifier || lowerStr (r.Name.getD "") == lowerStr identifier

/-- The matched rows of the report, in ledger order. -/
def user_rows (rows : List LedgerRow) (identifier : String) : List LedgerRow :=
  rows.filter (userMask identifier)

/-- The `bd_datetime` column of the matched rows (`str(row["Date"])` turns
a missing cell into the unparsable `"nan"`, hence the fallback to now). -/
def user_instants (rows : List LedgerRow) (identifier : String) (now : Int) : List Int :=
  (user_rows rows identifier).map fun r =>
    to_bd_datetime (r.Date.getD "nan") (r.Time.getD "nan") now

/-- The matched records (instant, amount, howSaved) sorted by instant,
latest first.  The source's `sort_values` is an unstable quicksort; tie
order among equal instants is irrelevant to every property proved here,
so a stable insertion sort on the same key stands in for it. -/
def sortedUserRecords (rows : List LedgerRow) (identifier : String) (now : Int) :
    List (Int × Int × String) :=
  List.insertionSort (fun a b : Int × Int × String => b.1 ≤ a.1)
    ((user_rows rows identifier).map fun r =>
      (to_bd_datetime (r.Date.getD "nan") (r.Time.getD "nan") now,
       r.Amount, r.howSaved.getD ""))

/-- Place one record into the first (latest-first) bucket whose
`[start, stop]` range contains its instant; no bucket takes it otherwise. -/
def assignRecord (ws : List WeekBucket) (rec : Int × Int × String) : List WeekBucket :=
  match ws with
  | [] => []
  | w :: rest =>
    if w.start ≤ rec.1 && rec.1 ≤ w.stop then
      { w with records := w.records ++ [rec], total := w.total + rec.2.1 } :: rest
    else w :: assignRecord rest rec

/-- The weekly-bucket portion of `build_user_details` from `app.py`:
`none` models the two 404 branches (no data / no rows for the
identifier).  `now` is the ambient clock `get_bd_now()`. -/
def build_user_weeks (rows : List LedgerRow) (identifier : String) (now : Int) :
    Option (List WeekBucket) :=
  if rows.isEmpty then none
  else
    match sortedUserRecords rows identifier now with
    | [] => none
    | r0 :: rs =>
      let oldest := rs.foldl (fun a r => min a r.1) r0.1
      let s := (get_bd_week_range oldest).1
      let e := (get_bd_week_range now).2
      let ranges := (week_ranges s e).reverse
      let weeks0 := ranges.map fun p => WeekBucket.mk p.1 p.2 [] 0
      some ((r0 :: rs).foldl assignRecord weeks0)

/-- The buckets of `weeks` whose `[start, stop]` range contains `dt`. -/
def bucketsContaining (weeks : List WeekBucket) (dt : Int) : List WeekBucket :=
  weeks.filter fun w => decide (w.start ≤ dt) && decide (dt ≤ w.stop)

/-! ## Contact mapping and the ledger merge engine -/

/-- A `{name, phone}` entry of the contact maps. -/
structure Entry where
  name : String
  phone : String
deriving DecidableEq

/-- A row of the uploaded contact table; `none` models a `NaN` cell. -/
structure ContactRow where
  phoneNumber : Option String
  savedName : Option String
  displayName : Option String
deriving DecidableEq

/-- Models `str(raw).strip() if not pd.isna(raw) else ""`. -/
def cellStr (c : Option String) : String :=
  match c with
  | some s => pyStrip s
  | none => ""

/-- Lookup in a Python dict built by repeated assignment: the most recent
binding of the key wins. -/
def dictFind (m : List (String × Entry)) (k : String) : Option Entry :=
  (m.reverse.find? fun p => p.1 == k).map (·.2)

/-- Embeds `load_contact_mapping_from_df` from `app.py`: build the
lowercased-name map and the normalized-phone map. -/
def load_contact_mapping_from_df (df : List ContactRow) :
    List (String × Entry) × List (String × Entry) :=
  df.foldl
    (fun maps row =>
      let phone := cellStr row.phoneNumber
      let phoneNorm := normalize_phone phone
      let saved := cellStr row.savedName
      let display := cellStr row.displayName
      let finalName := if saved ≠ "" then saved
                       else if display ≠ "" then display
                       else if phone ≠ "" then phone else ""
      if finalName = "" ∧ phone = "" then maps
      else
        let entry : Entry := ⟨if finalName ≠ "" then finalName else phone, phone⟩
        let nameMap := if finalName ≠ "" then maps.1 ++ [(lowerStr finalName, entry)] else maps.1
        let phoneMap := if phoneNorm ≠ "" then maps.2 ++ [(phoneNorm, entry)] else maps.2
        (nameMap, phoneMap))
    ([], [])

/-- The sender-resolution step of `build_dataframes_from_messages`:
name-map lookup first, then (for labels containing a digit) phone-map
lookup, else the raw label with an empty phone. -/
def resolveSender (nameMap phoneMap : List (String × Entry)) (senderOrig : String) :
    String × String :=
  match dictFind nameMap (lowerStr senderOrig) with
  | some e => (e.name, e.phone)
  | none =>
    if senderOrig.data.any Char.isDigit then
      match dictFind phoneMap (normalize_phone senderOrig) with
      | some e => (e.name, e.phone)
      | none => (senderOrig, "")
    else (senderOrig, "")

/-- The per-message body of the candidate loop of
`build_dataframes_from_messages`: skip messages without a sender, skip
dates at or before the cutoff (when both exist), skip non-saving texts,
skip absent or zero amounts; otherwise resolve the contact and emit the
row. -/
def candidateOf (nameMap phoneMap : List (String × Entry)) (lastDate : Option Int)
    (msg : Message) : Option LedgerRow :=
  match msg.sender with
  | none => none
  | some snd =>
    if snd = "" then none
    else
      let msgDate := parseDateNum msg.date
      if (match lastDate, msgDate with
          | some last, some d => decide (d ≤ last)
          | _, _ => false) then none
      else if !is_saving_message msg.text then none
      else match extract_amount msg.text with
        | none => none
        | some a =>
          if a = 0 then none
          else
            let senderOrig := pyStrip snd
            let resolved := resolveSender nameMap phoneMap senderOrig
            some ⟨some msg.date, some msg.time, some resolved.1, some resolved.2,
                  (a : Int), some msg.text⟩

/-- The `rows_new` list of `build_dataframes_from_messages`. -/
def candidate_rows (nameMap phoneMap : List (String × Entry)) (lastDate : Option Int)
    (msgs : List Message) : List LedgerRow :=
  msgs.filterMap (candidateOf nameMap phoneMap lastDate)

/-- Embeds `get_last_date_from_excel` from `app.py`, as a function of the `Data`
sheet it reads: the maximum `%m/%d/%y`-parseable date, `none` when there
is none (missing file, empty sheet, all-unparsable column). -/
def get_last_date_from_excel (dfOld : List LedgerRow) : Option Int :=
  (dfOld.filterMap fun r => r.Date.bind parseDateNum).max?

/-- Sort key order of `sort_values(["Date_sort", "Time_sort"],
ascending=[False, False])`: later keys first, unparsable (`NaT`) keys
last.  The source's quicksort is unstable; tie order is irrelevant to
every property proved here, so a stable insertion sort on the same key
stands in for it. -/
def rowSortLE (a b : LedgerRow) : Bool :=
  let da := a.Date.bind parseDateNum
  let db := b.Date.bind parseDateNum
  let ta := a.Time.bind parseTimeMin
  let tb := b.Time.bind parseTimeMin
  let lt : Option Int → Option Int → Bool := fun x y =>
    match x, y with
    | some u, some v => decide (v < u)
    | some _, none => true
    | none, _ => false
  let eqv : Option Int → Option Int → Bool := fun x y =>
    match x, y with
    | some u, some v => u == v
    | none, none => true
    | _, _ => false
  lt da db || (eqv da db &&
    (lt (ta.map Int.ofNat) (tb.map Int.ofNat) || eqv (ta.map Int.ofNat) (tb.map Int.ofNat)))

/-- A row of the `Summary` sheet as recomputed by the merge. -/
structure SummaryRow where
  Name : String
  Phone : String
  Total_Amount : Int
deriving DecidableEq

/-- The group key of a ledger row; `none` when the `Name` or `Phone` cell
is missing (pandas `groupby` drops such rows: `dropna=True` is the
default). -/
def rowKey (r : LedgerRow) : Option (String × String) :=
  match r.Name, r.Phone with
  | some n, some p => some (n, p)
  | _, _ => none

/-- Total `Amount` of the rows with group key `k`. -/
def group_total (df : List LedgerRow) (k : String × String) : Int :=
  ((df.filter fun r => decide (rowKey r = some k)).map (·.Amount)).sum

/-- The distinct group keys present in the ledger (first occurrences). -/
def group_keys (df : List LedgerRow) : List (String × String) :=
  (df.filterMap rowKey).dedup

/-- Ascending lexicographic order on group keys (`groupby(..., sort=True)`,
the default). -/
def keyLE (a b : String × String) : Bool :=
  decide (a.1 < b.1) || (a.1 == b.1 && decide (a.2 ≤ b.2))

/-- The recomputed `Summary` frame:
`df_data.groupby(["Name", "Phone"], as_index=False)["Amount"].sum()` —
one row per present (non-missing) key, keys sorted ascending. -/
def summarize (df : List LedgerRow) : List SummaryRow :=
  (List.insertionSort (fun a b => keyLE a b = true) (group_keys df)).map
    fun k => ⟨k.1, k.2, group_total df k⟩

/-- Embeds `build_dataframes_from_messages` from `app.py`, as a function of the
`Data` sheet currently persisted (which both `df_old` and the cutoff date
are read from), the parsed messages and the contact table.  Returns the
new `Data` frame, the recomputed `Summary` frame and the count of newly
appended rows. -/
def build_dataframes_from_messages (dfOld : List LedgerRow) (msgs : List Message)
    (contacts : List ContactRow) : List LedgerRow × List SummaryRow × Nat :=
  let maps := load_contact_mapping_from_df contacts
  let lastDate := get_last_date_from_excel dfOld
  let rowsNew := candidate_rows maps.1 maps.2 lastDate msgs
  let dfNew := if rowsNew.isEmpty then []
               else List.insertionSort (fun a b => rowSortLE a b = true) rowsNew
  let dfData := if rowsNew.isEmpty then dfOld else dfOld ++ dfNew
  (dfData, summarize dfData, dfNew.length)

/-! ## Excel persistence round trip

Writing a frame cell to the sheet and reading it back sends the empty
string (and a missing value) to a missing value: pandas' default
`na_values` turn an empty cell into `NaN` on `read_excel`.  Numeric cells
round-trip unchanged. -/

/-- The round trip of one string cell through the workbook. -/
def write_cell (c : Option String) : Option String :=
  match c with
  | some s => if s = "" then none else some s
  | none => none

/-- The round trip of a `Data` row. -/
def write_row (r : LedgerRow) : LedgerRow :=
  ⟨write_cell r.Date, write_cell r.Time, write_cell r.Name, write_cell r.Phone,
   r.Amount, write_cell r.howSaved⟩

/-- A `Summary` sheet row as persisted (string cells may be empty). -/
structure SummarySheetRow where
  Name : Option String
  Phone : Option String
  Total_Amount : Int
deriving DecidableEq

/-- The round trip of a `Summary` row. -/
def write_summary_row (s : SummaryRow) : SummarySheetRow :=
  ⟨write_cell (some s.Name), write_cell (some s.Phone), s.Total_Amount⟩

/-- The persisted workbook: the `Data` and `Summary` sheets as they read
back (`none` = empty cell). -/
structure ExcelFile where
  data : List LedgerRow
  summary : List SummarySheetRow
deriving DecidableEq

/-- Embeds `write_excel_from_upload` from `app.py` at the persistence level: run
the merge on the `Data` sheet as read and overwrite both sheets. -/
def write_excel_from_upload (file : ExcelFile) (msgs : List Message)
    (contacts : List ContactRow) : ExcelFile × Nat :=
  let out := build_dataframes_from_messages file.data msgs contacts
  (⟨out.1.map write_row, out.2.1.map write_summary_row⟩, out.2.2)

/-! ## Specification-side restatements and concrete instances

These definitions follow the wording of the specification's claims, to be
compared with the source embeddings by the refinement theorems below, or
give the concrete inputs used by witnesses and counterexamples. -/

/-- The classifier exactly as the specification words it: (1) weekly-total
phrase in the lowercase text → not a deposit; (2) a currency-grammar
occurrence → deposit; (3) trimmed text purely digits → deposit;
(4) otherwise not a deposit. -/
def classifier_spec (text : String) : Bool :=
  if containsSub "weekly ghost fund".data (text.data.map lowerChar) then false
  else if !(currency_finditer text).isEmpty then true
  else if fullmatchDigits (stripChars text.data) then true
  else false

/-- The extractor exactly as the specification words it: the sum of the
parsed values of all non-overlapping currency-grammar occurrences; else
the trimmed text if purely digits; else no amount. -/
def extractor_spec (text : String) : Option Nat :=
  let nums := currency_finditer text
  if !nums.isEmpty then some ((nums.map parseCleanNum).sum)
  else if fullmatchDigits (stripChars text.data) then some (digitsVal (stripChars text.data))
  else none

/-- The shape claimed for normalized phones: digits optionally preceded by
one leading `+` (so no `+` after the first position). -/
def plusLeadingDigits (s : String) : Bool :=
  match s.data with
  | '+' :: rest => rest.all Char.isDigit
  | l => l.all Char.isDigit

/-- The tokenizer as the specification describes it: one message per line
matching the message-start grammar, whose `REST` is split on the first
`": "` into sender and text; the non-matching lines up to the next
matching line append their trimmed content, separated by single spaces;
the open message is finalized at end of input.  (Non-matching lines
before the first matching line have no current message and are dropped.) -/
def tokenizer_chunks : List String → List Message
  | [] => []
  | raw :: ls =>
    match date_prefix_match (cleanLine raw.data) with
    | none => tokenizer_chunks ls
    | some (d, t, rest) =>
      (ls.takeWhile fun l => (date_prefix_match (cleanLine l.data)).isNone).foldl
          (fun m l => appendCont m (cleanLine l.data)) (openMessage d t rest)
        :: tokenizer_chunks (ls.dropWhile fun l => (date_prefix_match (cleanLine l.data)).isNone)
  termination_by l => l.length
  decreasing_by
  · simp only [List.length_cons]; omega
  · have h := (@List.dropWhile_sublist String ls
      (fun l : String => (date_prefix_match (cleanLine l.data)).isNone)).length_le
    simp only [List.length_cons]; omega

/-- The loop invariant shape: the tokenizer loop with open message `cur`
produces, on the remaining lines, the extension of `cur` over the coming
continuation lines followed by the chunks of the rest. -/
def chunksCont : Option Message → List String → List Message
  | none, ls => tokenizer_chunks ls
  | some m, ls =>
    (ls.takeWhile fun l => (date_prefix_match (cleanLine l.data)).isNone).foldl
        (fun m' l => appendCont m' (cleanLine l.data)) m
      :: tokenizer_chunks (ls.dropWhile fun l => (date_prefix_match (cleanLine l.data)).isNone)

/-- A concrete deposit message used by witnesses. -/
def wMsgDeposit : Message := ⟨"1/6/70", "8:00 AM", some "Bob", "50 tk"⟩

/-- A concrete no-amount message used by witnesses. -/
def wMsgNoAmount : Message := ⟨"1/6/70", "8:05 AM", some "Bob", "hello"⟩

/-- Prior ledger used by the C1 witness (maximum parseable date: day 4,
1970-01-05). -/
def c1Old : List LedgerRow :=
  [⟨some "1/5/70", some "9:00 PM", some "Alice", some "", 160, some "Saved 160 Tk"⟩]

/-- C2 counterexample: a ledger row whose `Phone` cell is missing (as
happens when an empty-string phone is written to the workbook and read
back) is dropped by the group-by, so the summary total sum differs from
the ledger total sum. -/
def c2Ledger : List LedgerRow :=
  [⟨some "1/1/70", some "12:00 AM", some "Alice", none, 5, some "x"⟩]

/-- C2 witness ledger: one row whose key is present (`Phone` is the empty
string, not missing). -/
def c2LedgerW : List LedgerRow :=
  [⟨some "1/1/70", some "12:00 AM", some "Alice", some "", 5, some "x"⟩]

/-- The upload message that reaches the C7 counterexample state: an
unresolved sender gets the empty-string phone. -/
def c7Msg : Message := ⟨"1/5/70", "9:00 PM", some "Alice", "Saved 160 Tk"⟩

/-- The persisted workbook after a first merge from the first-run (absent
ledger) state: Alice's phone cell is empty, her summary row is present. -/
def c7File : ExcelFile := (write_excel_from_upload ⟨[], []⟩ [c7Msg] []).1

/-- A consistent workbook (phone present and non-empty) for the C7
witness. -/
def c7FileW : ExcelFile :=
  ⟨[⟨some "1/5/70", some "9:00 PM", some "Alice", some "017", 160, some "Saved 160 Tk"⟩],
   [⟨some "Alice", some "017", 160⟩]⟩

/-- Rows for the C5 counterexample and witness: Alice has records on
1970-01-01 (a Thursday) and 1970-01-09 (the Friday after next week
start). -/
def c5Rows : List LedgerRow :=
  [⟨some "1/1/70", some "12:00 AM", some "Alice", some "017", 100, some "x"⟩,
   ⟨some "1/9/70", some "12:00 AM", some "Alice", some "017", 160, some "y"⟩]

/-! ## Helper lemmas -/

lemma isEmpty_map {α β : Type} (f : α → β) (l : List α) :
    (l.map f).isEmpty = l.isEmpty := by
  cases l <;> rfl

lemma isPySpace_lowerChar (c : Char) : isPySpace (lowerChar c) = isPySpace c := by
  unfold lowerChar
  split <;> rfl

lemma isDigit_lowerChar (c : Char) : (lowerChar c).isDigit = c.isDigit := by
  unfold lowerChar
  split <;> rfl

lemma stripChars_map_lowerChar (l : List Char) :
    stripChars (l.map lowerChar) = (stripChars l).map lowerChar := by
  have hcomp : (isPySpace ∘ lowerChar) = isPySpace := by
    funext c; exact isPySpace_lowerChar c
  unfold stripChars
  rw [List.dropWhile_map, hcomp, ← List.map_reverse, List.dropWhile_map, hcomp,
    ← List.map_reverse]

lemma fullmatchDigits_map_lowerChar (l : List Char) :
    fullmatchDigits (l.map lowerChar) = fullmatchDigits l := by
  have hcomp : (Char.isDigit ∘ lowerChar) = Char.isDigit := by
    funext c; exact isDigit_lowerChar c
  unfold fullmatchDigits
  rw [isEmpty_map, List.all_map, hcomp]

/-- Reversal preserves the substring (infix) relation. -/
lemma within_reverse {α : Type} {l₁ l₂ : List α} (h : l₁ <:+: l₂) :
    l₁.reverse <:+: l₂.reverse := by
  obtain ⟨s, t, rfl⟩ := h
  refine ⟨t.reverse, s.reverse, ?_⟩
  simp

/-- A substring whose first element fails `p` stays a substring after
`dropWhile p`. -/
lemma within_dropWhile {α : Type} {p : α → Bool} {P l : List α}
    (c : α) (P' : List α) (hP : P = c :: P') (hc : p c = false)
    (h : P <:+: l) : P <:+: l.dropWhile p := by
  obtain ⟨s, t, rfl⟩ := h
  rw [List.append_assoc, List.dropWhile_append]
  split
  · subst hP
    rw [List.cons_append, List.dropWhile_cons, hc]
    exact ⟨[], t, by simp⟩
  · exact ⟨List.dropWhile p s, t, by simp⟩

/-- The stripped list is a substring of the original. -/
lemma stripChars_within (l : List Char) : stripChars l <:+: l := by
  unfold stripChars
  have h1 : List.dropWhile isPySpace l <:+ l := List.dropWhile_suffix _
  have h2 : List.dropWhile isPySpace (List.dropWhile isPySpace l).reverse <:+
      (List.dropWhile isPySpace l).reverse := List.dropWhile_suffix _
  have h3 : (List.dropWhile isPySpace (List.dropWhile isPySpace l).reverse).reverse <+:
      List.dropWhile isPySpace l := by
    rw [← List.reverse_suffix]
    simpa using h2
  obtain ⟨t, ht⟩ := h3
  obtain ⟨s, hs⟩ := h1
  exact ⟨s, t, by rw [List.append_assoc, ht, hs]⟩

/-- Containment of the weekly-total phrase is invariant under stripping:
the phrase neither starts nor ends with whitespace. -/
lemma contains_phrase_strip (l : List Char) :
    containsSub "weekly ghost fund".data (stripChars l)
      = containsSub "weekly ghost fund".data l := by
  unfold containsSub
  rw [decide_eq_decide]
  constructor
  · intro h
    exact h.trans (stripChars_within l)
  · intro h
    unfold stripChars
    have h1 : "weekly ghost fund".data <:+: List.dropWhile isPySpace l :=
      within_dropWhile 'w' _ rfl (by decide) h
    have h2 : "weekly ghost fund".data.reverse <:+:
        (List.dropWhile isPySpace l).reverse := within_reverse h1
    have h3 : "weekly ghost fund".data.reverse <:+:
        List.dropWhile isPySpace (List.dropWhile isPySpace l).reverse :=
      within_dropWhile 'd' _ rfl (by decide) h2
    have h4 := within_reverse h3
    simpa using h4

/-! ## C3 — the saving-message classifier -/

/-- C3: `is_saving_message` is a pure total function equal to the
specification's four-rule decision list (weekly-total phrase rejects,
currency occurrence accepts, purely-numeric trimmed text accepts, default
rejects), and the four documented examples classify as stated. -/
theorem c3_classifier :
    (∀ text, is_saving_message text = classifier_spec text)
    ∧ is_saving_message "My weekly ghost fund total: BDT 90" = false
    ∧ is_saving_message "Saved 160 Tk and 80 Tk" = true
    ∧ is_saving_message "200" = true
    ∧ is_saving_message "hello everyone" = false := by
  refine ⟨fun text => ?_, by decide, by decide, by decide, by decide⟩
  by_cases h0 : text = ""
  · subst h0; decide
  · simp only [is_saving_message, classifier_spec, if_neg h0]
    rw [contains_phrase_strip, stripChars_map_lowerChar, fullmatchDigits_map_lowerChar]

/-! ## C4 — the amount extractor -/

/-- C4: `extract_amount` equals the specification's description — the sum
of the integer values of all non-overlapping currency-grammar occurrences
(commas stripped), else the trimmed text when purely digits, else no
amount — and the four documented examples extract as stated; the result
type makes every returned amount a non-negative integer. -/
theorem c4_extractor :
    (∀ text, extract_amount text = extractor_spec text)
    ∧ extract_amount "Saved 160 Tk and 80 Tk" = some 240
    ∧ extract_amount "BDT 1,200" = some 1200
    ∧ extract_amount "200" = some 200
    ∧ extract_amount "hello" = none := by
  refine ⟨fun text => ?_, by decide, by decide, by decide, by decide⟩
  by_cases h0 : text = ""
  · subst h0; decide
  · simp only [extract_amount, extractor_spec, if_neg h0, isEmpty_map]

/-! ## C9 — phone normalization -/

/-- C9 counterexample: the claim says no `+` survives outside the leading
position, but `normalize_phone` keeps every `+`: on `"1+2"` it returns
`"1+2"`, which is not of the claimed digits-with-optional-leading-`+`
shape. -/
theorem c9_counterexample :
    normalize_phone "1+2" = "1+2"
    ∧ plusLeadingDigits (normalize_phone "1+2") = false := by
  exact ⟨rfl, by decide⟩

lemma normalize_phone_data (s : String) :
    (normalize_phone s).data = s.data.filter fun c => c.isDigit || c == '+' := by
  unfold normalize_phone
  split
  · rename_i h; rw [h]; rfl
  · rfl

/-- C9 (amended): `normalize_phone` removes exactly the characters that
are neither digits nor `+`: the result is a subsequence of the input all
of whose characters are digits or `+`, and every digit and every `+` of
the input is kept (wherever the `+` occurs — not only at the front). -/
theorem c9_normalize_phone (s : String) :
    (normalize_phone s).data.Sublist s.data
    ∧ (∀ c ∈ (normalize_phone s).data, c.isDigit = true ∨ c = '+')
    ∧ (∀ c, c.isDigit = true ∨ c = '+' →
        (normalize_phone s).data.count c = s.data.count c) := by
  refine ⟨?_, ?_, ?_⟩
  · rw [normalize_phone_data]; exact List.filter_sublist _
  · intro c hc
    rw [normalize_phone_data] at hc
    have h := (List.mem_filter.mp hc).2
    rcases Bool.or_eq_true_iff.mp h with h1 | h1
    · exact Or.inl h1
    · exact Or.inr (eq_of_beq h1)
  · intro c hc
    rw [normalize_phone_data]
    refine List.count_filter ?_
    rcases hc with h1 | h1
    · simp [h1]
    · subst h1; decide

/-- C9 witness: the amended count property applied at a concrete input. -/
theorem c9_normalize_phone_witness :
    (normalize_phone "+88 017").data.count '+' = "+88 017".data.count '+' :=
  (c9_normalize_phone "+88 017").2.2 '+' (Or.inr rfl)

/-! ## C10 — classification implies extractability -/

/-- C10: whenever the classifier accepts a text as a deposit, the
extractor returns an amount (never the absence signal), so the merge
pipeline's no-amount skip can only fire on the value 0 for
classifier-accepted messages. -/
theorem c10_saving_has_amount (text : String) (h : is_saving_message text = true) :
    ∃ n, extract_amount text = some n := by
  by_cases h0 : text = ""
  · rw [h0] at h; exact absurd h (by decide)
  · simp only [is_saving_message, if_neg h0] at h
    by_cases h1 : containsSub "weekly ghost fund".data
        (stripChars (text.data.map lowerChar)) = true
    · rw [if_pos h1] at h; exact absurd h (by decide)
    · rw [if_neg h1] at h
      by_cases hn : currency_finditer text = []
      · rw [hn] at h
        simp only [List.isEmpty_nil, Bool.not_true, if_false] at h
        have hdig : fullmatchDigits (stripChars (text.data.map lowerChar)) = true := by
          by_cases h2 : fullmatchDigits (stripChars (text.data.map lowerChar)) = true
          · exact h2
          · rw [if_neg h2] at h; exact absurd h (by decide)
        rw [stripChars_map_lowerChar, fullmatchDigits_map_lowerChar] at hdig
        refine ⟨digitsVal (stripChars text.data), ?_⟩
        simp only [extract_amount, if_neg h0, hn, List.map_nil, List.isEmpty_nil,
          Bool.not_true, if_false, hdig, if_true]
        simp
      · refine ⟨((currency_finditer text).map parseCleanNum).sum, ?_⟩
        have hne : ((currency_finditer text).map parseCleanNum).isEmpty = false := by
          rw [isEmpty_map]
          cases hcf : currency_finditer text with
          | nil => exact absurd hcf hn
          | cons a l => rfl
        simp only [extract_amount, if_neg h0, hne, Bool.not_false, if_true]

/-- C10 witness: applied at the concrete accepted text `"200"`. -/
theorem c10_saving_has_amount_witness :
    is_saving_message "200" = true ∧ ∃ n, extract_amount "200" = some n :=
  ⟨by decide, c10_saving_has_amount "200" (by decide)⟩

/-! ## C8 / C1 — the candidate loop of the merge -/

/-- Inversion of the candidate loop: an emitted row carries the message's
date string, its date (when parseable) lies strictly after the cutoff
(when one exists), and its amount is a non-zero extracted amount. -/
lemma candidateOf_eq_some {nameMap phoneMap : List (String × Entry)}
    {lastDate : Option Int} {msg : Message} {r : LedgerRow}
    (h : candidateOf nameMap phoneMap lastDate msg = some r) :
    r.Date = some msg.date
    ∧ (∀ lastD d, lastDate = some lastD → parseDateNum msg.date = some d → lastD < d)
    ∧ ∃ a : Nat, extract_amount msg.text = some a ∧ a ≠ 0 ∧ r.Amount = (a : Int) := by
  simp only [candidateOf] at h
  split at h
  · exact absurd h (by simp)
  · split at h
    · exact absurd h (by simp)
    · split at h
      · exact absurd h (by simp)
      · rename_i hguard
        split at h
        · exact absurd h (by simp)
        · split at h
          · exact absurd h (by simp)
          · rename_i a he
            split at h
            · exact absurd h (by simp)
            · rename_i ha
              injection h with hinj
              subst hinj
              refine ⟨rfl, ?_, a, he, ha, rfl⟩
              intro lastD d hl hd
              rw [hl, hd] at hguard
              simp only [decide_eq_true_eq] at hguard
              omega

/-- C8: every row emitted by the candidate loop has a strictly positive
amount, and a message whose extracted amount is absent or `0` emits no
row at all. -/
theorem c8_positive_amount :
    (∀ nameMap phoneMap lastDate msgs r,
        r ∈ candidate_rows nameMap phoneMap lastDate msgs → 0 < r.Amount)
    ∧ (∀ nameMap phoneMap lastDate msg,
        (extract_amount msg.text = none ∨ extract_amount msg.text = some 0) →
        candidate_rows nameMap phoneMap lastDate [msg] = []) := by
  constructor
  · intro nm pm ld msgs r hr
    obtain ⟨msg, -, hm⟩ := List.mem_filterMap.mp hr
    obtain ⟨-, -, a, -, ha, hA⟩ := candidateOf_eq_some hm
    rw [hA]
    exact_mod_cast Nat.pos_of_ne_zero ha
  · intro nm pm ld msg hex
    have hnone : candidateOf nm pm ld msg = none := by
      cases hco : candidateOf nm pm ld msg with
      | none => rfl
      | some r =>
        obtain ⟨-, -, a, hea, ha, -⟩ := candidateOf_eq_some hco
        rcases hex with h | h
        · rw [h] at hea; cases hea
        · rw [h] at hea
          injection hea with hh
          exact absurd hh.symm ha
    simp [candidate_rows, List.filterMap_cons, hnone]

/-- C8 witness: both parts applied at concrete inputs. -/
theorem c8_positive_amount_witness :
    (0 : Int) <
      (⟨some "1/6/70", some "8:00 AM", some "Bob", some "", 50, some "50 tk"⟩ : LedgerRow).Amount
    ∧ candidate_rows [] [] none [wMsgNoAmount] = [] :=
  ⟨c8_positive_amount.1 [] [] none [wMsgDeposit] _ (by decide),
   c8_positive_amount.2 [] [] none wMsgNoAmount (Or.inl (by decide))⟩

/-- C1: when the prior ledger's maximum parseable date is `D`, the merged
frame is the prior rows followed (in their prior order, unchanged) by the
newly appended rows, and no appended row whose date string parses has a
parsed date at or before `D`. -/
theorem c1_merge_cutoff (dfOld : List LedgerRow) (msgs : List Message)
    (contacts : List ContactRow) (D : Int)
    (hD : get_last_date_from_excel dfOld = some D) :
    ∃ newRows : List LedgerRow,
      (build_dataframes_from_messages dfOld msgs contacts).1 = dfOld ++ newRows
      ∧ ∀ r ∈ newRows, ∀ s d, r.Date = some s → parseDateNum s = some d → D < d := by
  simp only [build_dataframes_from_messages]
  by_cases hempty :
      candidate_rows (load_contact_mapping_from_df contacts).1
        (load_contact_mapping_from_df contacts).2 (get_last_date_from_excel dfOld) msgs = []
  · exact ⟨[], by simp [hempty], by simp⟩
  · have hne : (candidate_rows (load_contact_mapping_from_df contacts).1
        (load_contact_mapping_from_df contacts).2
        (get_last_date_from_excel dfOld) msgs).isEmpty = false := by
      rw [← Bool.not_eq_true, List.isEmpty_iff]
      exact hempty
    refine ⟨List.insertionSort (fun a b => rowSortLE a b = true)
      (candidate_rows (load_contact_mapping_from_df contacts).1
        (load_contact_mapping_from_df contacts).2
        (get_last_date_from_excel dfOld) msgs), by simp [hne], ?_⟩
    intro r hr s d hDate hparse
    have hr' : r ∈ candidate_rows (load_contact_mapping_from_df contacts).1
        (load_contact_mapping_from_df contacts).2 (get_last_date_from_excel dfOld) msgs :=
      (List.perm_insertionSort _ _).mem_iff.mp hr
    obtain ⟨msg, -, hm⟩ := List.mem_filterMap.mp hr'
    obtain ⟨hdate, hcut, -⟩ := candidateOf_eq_some hm
    rw [hdate] at hDate
    injection hDate with hds
    exact hcut D d hD (hds ▸ hparse)

/-- C1 witness: applied at a concrete prior ledger and message list. -/
theorem c1_merge_cutoff_witness :
    get_last_date_from_excel c1Old = some 4
    ∧ ∃ newRows : List LedgerRow,
        (build_dataframes_from_messages c1Old [wMsgDeposit] []).1 = c1Old ++ newRows
        ∧ ∀ r ∈ newRows, ∀ s d, r.Date = some s → parseDateNum s = some d → 4 < d :=
  ⟨by decide, c1_merge_cutoff c1Old [wMsgDeposit] [] 4 (by decide)⟩

/-! ## C2 — the recomputed summary -/

/-- Counting with `List.count` on pairs of strings (with the product `BEq` instance)
counts by propositional equality. -/
lemma countProd_eq_countP (l : List (String × String)) (k : String × String) :
    l.count k = l.countP fun x => decide (x = k) := by
  unfold List.count
  apply List.countP_congr
  intro x _
  cases x with
  | mk x1 x2 =>
    cases k with
    | mk k1 k2 =>
      by_cases h1 : x1 = k1 <;> by_cases h2 : x2 = k2 <;>
        simp [h1, h2, Prod.ext_iff]

lemma sum_filter_or {α : Type} (f : α → Int) (p q : α → Bool) (l : List α)
    (hdisj : ∀ x, ¬(p x = true ∧ q x = true)) :
    ((l.filter fun x => p x || q x).map f).sum
      = ((l.filter p).map f).sum + ((l.filter q).map f).sum := by
  induction l with
  | nil => simp
  | cons a l ih =>
    rw [List.filter_cons, List.filter_cons, List.filter_cons]
    by_cases hp : p a = true
    · have hq : ¬q a = true := fun hq => hdisj a ⟨hp, hq⟩
      rw [if_pos (show (p a || q a) = true by rw [hp]; rfl), if_pos hp, if_neg hq,
        List.map_cons, List.sum_cons, List.map_cons, List.sum_cons, ih]
      ring
    · by_cases hq : q a = true
      · rw [if_pos (show (p a || q a) = true by rw [hq]; simp), if_neg hp, if_pos hq,
          List.map_cons, List.sum_cons, List.map_cons, List.sum_cons, ih]
        ring
      · have hpf : p a = false := Bool.eq_false_iff.mpr hp
        have hqf : q a = false := Bool.eq_false_iff.mpr hq
        rw [if_neg (show ¬(p a || q a) = true by rw [hpf, hqf]; simp),
          if_neg hp, if_neg hq]
        exact ih

/-- Summing the per-key group totals over a duplicate-free key list equals
summing the amounts of the rows whose key lies in the list. -/
lemma group_keys_partition (df : List LedgerRow) (K : List (String × String))
    (hK : K.Nodup) :
    (K.map (group_total df)).sum
      = ((df.filter fun r => match rowKey r with
            | some k => decide (k ∈ K)
            | none => false).map (·.Amount)).sum := by
  induction K with
  | nil =>
    have hnil : (df.filter fun r => match rowKey r with
        | some k => decide (k ∈ ([] : List (String × String)))
        | none => false) = [] := by
      rw [List.filter_eq_nil_iff]
      intro r _
      cases rowKey r <;> simp
    rw [hnil]; simp
  | cons k K ih =>
    obtain ⟨hk1, hk2⟩ := List.nodup_cons.mp hK
    have hpred : (fun r => match rowKey r with
          | some k' => decide (k' ∈ k :: K)
          | none => false)
        = fun r => decide (rowKey r = some k) || (match rowKey r with
          | some k' => decide (k' ∈ K)
          | none => false) := by
      funext r
      cases hkr : rowKey r with
      | none => simp
      | some k' =>
        by_cases h1 : k' = k <;> by_cases h2 : k' ∈ K <;>
          simp [h1, h2, List.mem_cons]
    have hdisj : ∀ x : LedgerRow,
        ¬(decide (rowKey x = some k) = true ∧ (match rowKey x with
            | some k' => decide (k' ∈ K)
            | none => false) = true) := by
      intro x ⟨h1, h2⟩
      rw [decide_eq_true_eq] at h1
      rw [h1] at h2
      simp only [decide_eq_true_eq] at h2
      exact hk1 h2
    rw [hpred, sum_filter_or _ _ _ _ hdisj, List.map_cons, List.sum_cons, ih hk2]
    rfl

/-- Over the keys actually present, the key-membership filter is the
present-key filter. -/
lemma filter_group_keys (df : List LedgerRow) :
    (df.filter fun r => match rowKey r with
        | some k => decide (k ∈ group_keys df)
        | none => false)
      = df.filter fun r => (rowKey r).isSome := by
  apply List.filter_congr
  intro r hr
  cases hk : rowKey r with
  | none => simp
  | some k =>
    simp only [Option.isSome_some]
    exact decide_eq_true (List.mem_dedup.mpr (List.mem_filterMap.mpr ⟨r, hr, hk⟩))

lemma summarize_total_sum (df : List LedgerRow) :
    ((summarize df).map (·.Total_Amount)).sum
      = ((df.filter fun r => (rowKey r).isSome).map (·.Amount)).sum := by
  unfold summarize
  rw [List.map_map]
  have h1 : ((fun s : SummaryRow => s.Total_Amount)
      ∘ fun k : String × String => SummaryRow.mk k.1 k.2 (group_total df k))
      = group_total df := rfl
  rw [h1, ((List.perm_insertionSort (fun a b => keyLE a b = true)
      (group_keys df)).map (group_total df)).sum_eq,
    group_keys_partition df (group_keys df) (List.nodup_dedup _), filter_group_keys]

lemma summarize_keys (df : List LedgerRow) :
    (summarize df).map (fun s => (s.Name, s.Phone))
      = List.insertionSort (fun a b => keyLE a b = true) (group_keys df) := by
  unfold summarize
  rw [List.map_map]
  have h1 : ((fun s : SummaryRow => (s.Name, s.Phone))
      ∘ fun k : String × String => SummaryRow.mk k.1 k.2 (group_total df k)) = id := by
    funext k; exact Prod.mk.eta
  rw [h1, List.map_id]

/-- C2 counterexample theorem: on `c2Ledger` the claimed equality
`sum(summary.Total_Amount) = sum(ledger.Amount)` fails (0 ≠ 5), so the
claim as stated — exhaustive grouping including rows with missing
`Name`/`Phone` — is false. -/
theorem c2_summary_counterexample :
    ((summarize c2Ledger).map (·.Total_Amount)).sum ≠ (c2Ledger.map (·.Amount)).sum := by
  decide

/-- C2 (amended): grouping is exhaustive over the rows whose `Name` and
`Phone` are both present (missing-keyed rows are dropped): the summary
total equals the ledger total restricted to present-key rows, and every
present key appears exactly once in the summary. -/
theorem c2_summary_amended (df : List LedgerRow) :
    ((summarize df).map (·.Total_Amount)).sum
      = ((df.filter fun r => (rowKey r).isSome).map (·.Amount)).sum
    ∧ (∀ r ∈ df, ∀ k, rowKey r = some k →
        ((summarize df).map fun s => (s.Name, s.Phone)).count k = 1) := by
  refine ⟨summarize_total_sum df, ?_⟩
  intro r hr k hk
  rw [summarize_keys, countProd_eq_countP]
  exact ((List.perm_insertionSort (fun a b => keyLE a b = true)
      (group_keys df)).count_eq k).trans
    (List.count_eq_one_of_mem (List.nodup_dedup _)
      (List.mem_dedup.mpr (List.mem_filterMap.mpr ⟨r, hr, hk⟩)))

/-- C2 witness: the amended exactly-once property applied at a concrete
ledger. -/
theorem c2_summary_amended_witness :
    ((summarize c2LedgerW).map fun s => (s.Name, s.Phone)).count ("Alice", "") = 1 :=
  (c2_summary_amended c2LedgerW).2
    ⟨some "1/1/70", some "12:00 AM", some "Alice", some "", 5, some "x"⟩
    (by decide) ("Alice", "") (by decide)

/-! ## C6 — the chat log tokenizer -/

lemma parseLinesAux_eq_chunksCont (ls : List String) :
    ∀ cur, parseLinesAux cur ls = chunksCont cur ls := by
  induction ls with
  | nil =>
    intro cur
    cases cur with
    | none => simp [parseLinesAux, chunksCont, tokenizer_chunks]
    | some m => simp [parseLinesAux, chunksCont, tokenizer_chunks]
  | cons raw ls ih =>
    intro cur
    cases hm : date_prefix_match (cleanLine raw.data) with
    | some g =>
      obtain ⟨d, t, rest⟩ := g
      have hl : parseLinesAux cur (raw :: ls)
          = cur.toList ++ parseLinesAux (some (openMessage d t rest)) ls := by
        simp [parseLinesAux, hm]
      rw [hl, ih]
      cases cur with
      | none => simp [chunksCont, tokenizer_chunks, hm]
      | some m =>
        simp [chunksCont, tokenizer_chunks, hm, List.takeWhile_cons, List.dropWhile_cons]
    | none =>
      have hl : parseLinesAux cur (raw :: ls)
          = parseLinesAux (cur.map fun m => appendCont m (cleanLine raw.data)) ls := by
        simp [parseLinesAux, hm]
      rw [hl, ih]
      cases cur with
      | none => simp [chunksCont, tokenizer_chunks, hm]
      | some m =>
        simp [chunksCont, List.takeWhile_cons, List.dropWhile_cons, hm, List.foldl_cons]

/-- C6: the tokenizer equals the specification's chunking description —
one message per matching line (`REST` split on the first `": "`), each
non-matching line appending its trimmed content to the current message
separated by a single space, and the open message finalized at end of
input — illustrated on a concrete two-message export with a continuation
line and a sender-less line. -/
theorem c6_tokenizer :
    (∀ text, parse_messages_from_string text = tokenizer_chunks (pySplitlines text))
    ∧ parse_messages_from_string
        "3/5/24, 9:00 PM - Alice: Saved 160 Tk\nand 80 more\n3/6/24, 10:15 AM - System notice"
      = [⟨"3/5/24", "9:00 PM", some "Alice", "Saved 160 Tk and 80 more"⟩,
         ⟨"3/6/24", "10:15 AM", none, "System notice"⟩] :=
  ⟨fun text => parseLinesAux_eq_chunksCont (pySplitlines text) none, by decide⟩

/-! ## C7 — merging with no candidate rows -/

/-- C7 (amended): with zero candidate rows the merge reports 0 new rows,
rewrites the `Data` sheet as the round trip of the prior rows (unchanged
whenever the prior sheet round-trips to itself, which holds for any sheet
that was just read), and fully recomputes the `Summary` sheet from the
`Data` sheet as read; the whole workbook is byte-for-byte unchanged
exactly when the prior `Summary` sheet equals that recomputation — which
can fail after a round trip, since a row whose `Name` or `Phone` was
written as the empty string reads back as missing and is dropped from the
recomputed summary. -/
theorem c7_empty_merge (file : ExcelFile) (msgs : List Message)
    (contacts : List ContactRow)
    (hcand : candidate_rows (load_contact_mapping_from_df contacts).1
        (load_contact_mapping_from_df contacts).2
        (get_last_date_from_excel file.data) msgs = []) :
    (write_excel_from_upload file msgs contacts).2 = 0
    ∧ (write_excel_from_upload file msgs contacts).1.data = file.data.map write_row
    ∧ (write_excel_from_upload file msgs contacts).1.summary
        = (summarize file.data).map write_summary_row
    ∧ (file.data.map write_row = file.data →
        file.summary = (summarize file.data).map write_summary_row →
        (write_excel_from_upload file msgs contacts).1 = file) := by
  have hmain : build_dataframes_from_messages file.data msgs contacts
      = (file.data, summarize file.data, 0) := by
    simp only [build_dataframes_from_messages, hcand]
    simp
  refine ⟨?_, ?_, ?_, ?_⟩
  · simp [write_excel_from_upload, hmain]
  · simp [write_excel_from_upload, hmain]
  · simp [write_excel_from_upload, hmain]
  · intro h1 h2
    cases file with
    | mk d s =>
      simp only [write_excel_from_upload, hmain] at *
      rw [ExcelFile.mk.injEq]
      exact ⟨h1, h2.symm⟩

/-- C7 counterexample: merging zero candidate rows against `c7File`
reports 0 and leaves the `Data` sheet unchanged, but the recomputed
`Summary` sheet differs from the prior one (the empty-phone row read back
as missing and was dropped by the group-by), so the claim's
"summary equal to its prior contents" is false. -/
theorem c7_counterexample :
    (write_excel_from_upload c7File [] []).2 = 0
    ∧ (write_excel_from_upload c7File [] []).1.data = c7File.data
    ∧ (write_excel_from_upload c7File [] []).1.summary ≠ c7File.summary := by
  decide

/-- C7 witness: the amended theorem applied at a concrete consistent
workbook and an empty upload — the workbook is unchanged and the count
is 0. -/
theorem c7_empty_merge_witness :
    (write_excel_from_upload c7FileW [] []).1 = c7FileW
    ∧ (write_excel_from_upload c7FileW [] []).2 = 0 :=
  ⟨(c7_empty_merge c7FileW [] [] (by decide)).2.2.2 (by decide) (by decide),
   (c7_empty_merge c7FileW [] [] (by decide)).1⟩

/-! ## C5 — weekly buckets -/

lemma get_bd_week_range_facts (t : Int) :
    (get_bd_week_range t).1 % usPerDay = 0
    ∧ pyWeekday (get_bd_week_range t).1 = 4
    ∧ (get_bd_week_range t).2 = (get_bd_week_range t).1 + 7 * usPerDay - 1
    ∧ (get_bd_week_range t).1 ≤ t ∧ t ≤ (get_bd_week_range t).2 := by
  simp only [get_bd_week_range, pyWeekday, usPerDay]
  omega

/-- The two week boundaries are a whole number of weeks apart. -/
lemma week_align (t u : Int) :
    ((get_bd_week_range u).2 + 1 - (get_bd_week_range t).1) % (7 * usPerDay) = 0 := by
  simp only [get_bd_week_range, usPerDay]
  omega

lemma endOfDay_midnight (t : Int) (h : t % usPerDay = 0) :
    endOfDay (t + 6 * usPerDay) = t + 7 * usPerDay - 1 := by
  simp only [endOfDay, usPerDay] at *
  omega

lemma weekRangesAux_mem : ∀ (n : Nat) (cursor e : Int), cursor % usPerDay = 0 →
    ∀ p ∈ weekRangesAux n cursor e,
      cursor ≤ p.1 ∧ p.1 % usPerDay = 0 ∧ (p.1 - cursor) % (7 * usPerDay) = 0
      ∧ p.2 = p.1 + 7 * usPerDay - 1 ∧ p.1 ≤ e := by
  intro n
  induction n with
  | zero => intro cursor e _ p hp; simp [weekRangesAux] at hp
  | succ n ih =>
    intro cursor e hc p hp
    rw [weekRangesAux] at hp
    split at hp
    · rename_i hle
      rcases List.mem_cons.mp hp with he | hm
      · subst he
        refine ⟨le_refl _, hc, by simp, endOfDay_midnight _ hc, hle⟩
      · have hc7 : (cursor + 7 * usPerDay) % usPerDay = 0 := by
          simp only [usPerDay] at *; omega
        obtain ⟨h1, h2, h3, h4, h5⟩ := ih (cursor + 7 * usPerDay) e hc7 p hm
        refine ⟨by simp only [usPerDay] at *; omega, h2, ?_, h4, h5⟩
        simp only [usPerDay] at *
        omega
    · simp at hp

lemma weekRangesAux_head : ∀ (n : Nat) (cursor e : Int) (p : Int × Int),
    (weekRangesAux n cursor e).head? = some p → p.1 = cursor := by
  intro n cursor e p h
  cases n with
  | zero => simp [weekRangesAux] at h
  | succ n =>
    rw [weekRangesAux] at h
    split at h
    · rw [List.head?_cons] at h
      injection h with h
      rw [← h]
    · simp at h

lemma weekRangesAux_chain : ∀ (n : Nat) (cursor e : Int),
    List.Chain' (fun a b : Int × Int => b.1 = a.1 + 7 * usPerDay)
      (weekRangesAux n cursor e) := by
  intro n
  induction n with
  | zero => intro cursor e; simp [weekRangesAux]
  | succ n ih =>
    intro cursor e
    rw [weekRangesAux]
    split
    · rw [List.chain'_cons']
      refine ⟨?_, ih _ _⟩
      intro b hb
      exact weekRangesAux_head n (cursor + 7 * usPerDay) e b (Option.mem_def.mp hb)
    · simp

lemma weekRangesAux_count : ∀ (n : Nat) (cursor e dt : Int),
    cursor % usPerDay = 0 → cursor ≤ dt → dt ≤ e →
    e < cursor + 7 * usPerDay * (n : Int) →
    ((weekRangesAux n cursor e).filter
        (fun p => decide (p.1 ≤ dt) && decide (dt ≤ p.2))).length = 1 := by
  intro n
  induction n with
  | zero =>
    intro cursor e dt _ h1 h2 h3
    exfalso
    simp only [Nat.cast_zero, mul_zero, add_zero] at h3
    omega
  | succ n ih =>
    intro cursor e dt h0 h1 h2 h3
    rw [weekRangesAux, if_pos (show cursor ≤ e by omega)]
    rw [List.filter_cons]
    by_cases hin : dt ≤ cursor + 7 * usPerDay - 1
    · have hc : (decide (cursor ≤ dt) && decide (dt ≤ endOfDay (cursor + 6 * usPerDay))) = true := by
        rw [endOfDay_midnight _ h0]
        simp only [Bool.and_eq_true, decide_eq_true_eq]
        exact ⟨h1, hin⟩
      rw [if_pos hc]
      have hrest : ((weekRangesAux n (cursor + 7 * usPerDay) e).filter
          (fun p => decide (p.1 ≤ dt) && decide (dt ≤ p.2))) = [] := by
        rw [List.filter_eq_nil_iff]
        intro p hp
        have hmem := weekRangesAux_mem n (cursor + 7 * usPerDay) e
          (by simp only [usPerDay] at *; omega) p hp
        simp only [Bool.and_eq_true, decide_eq_true_eq, not_and]
        intro hle
        omega
      rw [hrest]
      rfl
    · have hc : (decide (cursor ≤ dt) && decide (dt ≤ endOfDay (cursor + 6 * usPerDay))) = false := by
        rw [endOfDay_midnight _ h0]
        have hd : decide (dt ≤ cursor + 7 * usPerDay - 1) = false := by
          simp only [decide_eq_false_iff_not]
          omega
        rw [hd, Bool.and_false]
      rw [hc, if_neg (by simp)]
      refine ih (cursor + 7 * usPerDay) e dt (by simp only [usPerDay] at *; omega)
        (by omega) h2 ?_
      have hcast : ((n + 1 : Nat) : Int) = (n : Int) + 1 := by push_cast; ring
      rw [hcast] at h3
      simp only [usPerDay] at h3 ⊢
      omega

lemma weekRangesAux_last : ∀ (n : Nat) (cursor e : Int), cursor % usPerDay = 0 →
    cursor ≤ e → e < cursor + 7 * usPerDay * (n : Int) →
    (e + 1 - cursor) % (7 * usPerDay) = 0 →
    ∃ p ∈ weekRangesAux n cursor e, p.2 = e := by
  intro n
  induction n with
  | zero =>
    intro cursor e _ h1 h2 _
    exfalso
    simp only [Nat.cast_zero, mul_zero, add_zero] at h2
    omega
  | succ n ih =>
    intro cursor e h0 h1 h2 h3
    rw [weekRangesAux, if_pos h1]
    by_cases hend : e < cursor + 7 * usPerDay
    · refine ⟨(cursor, endOfDay (cursor + 6 * usPerDay)), List.mem_cons_self _ _, ?_⟩
      rw [endOfDay_midnight _ h0]
      simp only [usPerDay] at *
      omega
    · obtain ⟨p, hp, hpe⟩ := ih (cursor + 7 * usPerDay) e
        (by simp only [usPerDay] at *; omega) (by omega)
        (by
          have hcast : ((n + 1 : Nat) : Int) = (n : Int) + 1 := by push_cast; ring
          rw [hcast] at h2
          simp only [usPerDay] at h2 ⊢
          omega)
        (by simp only [usPerDay] at *; omega)
      exact ⟨p, List.mem_cons_of_mem _ hp, hpe⟩

lemma assignRecord_startStops (ws : List WeekBucket) (rec : Int × Int × String) :
    (assignRecord ws rec).map (fun w => (w.start, w.stop))
      = ws.map fun w => (w.start, w.stop) := by
  induction ws with
  | nil => rfl
  | cons w rest ih =>
    rw [assignRecord]
    split
    · simp
    · simp [ih]

lemma foldl_assign_startStops (recs : List (Int × Int × String)) :
    ∀ ws : List WeekBucket,
      (recs.foldl assignRecord ws).map (fun w => (w.start, w.stop))
        = ws.map fun w => (w.start, w.stop) := by
  induction recs with
  | nil => intro ws; rfl
  | cons r recs ih =>
    intro ws
    rw [List.foldl_cons, ih, assignRecord_startStops]

lemma foldl_min_le (rs : List (Int × Int × String)) :
    ∀ x0 : Int, rs.foldl (fun a r => min a r.1) x0 ≤ x0
      ∧ ∀ r ∈ rs, rs.foldl (fun a r => min a r.1) x0 ≤ r.1 := by
  induction rs with
  | nil => intro x0; exact ⟨le_refl _, by simp⟩
  | cons r rs ih =>
    intro x0
    rw [List.foldl_cons]
    obtain ⟨h1, h2⟩ := ih (min x0 r.1)
    refine ⟨h1.trans (min_le_left _ _), ?_⟩
    intro r' hr'
    rcases List.mem_cons.mp hr' with he | hm
    · rw [he]
      exact h1.trans (min_le_right _ _)
    · exact h2 r' hm

lemma foldl_min_mem (rs : List (Int × Int × String)) :
    ∀ x0 : Int, rs.foldl (fun a r => min a r.1) x0 = x0
      ∨ ∃ r ∈ rs, rs.foldl (fun a r => min a r.1) x0 = r.1 := by
  induction rs with
  | nil => intro x0; exact Or.inl rfl
  | cons r rs ih =>
    intro x0
    rw [List.foldl_cons]
    rcases ih (min x0 r.1) with h | ⟨r', hr', h⟩
    · rcases min_choice x0 r.1 with hm | hm
      · exact Or.inl (h.trans hm)
      · exact Or.inr ⟨r, List.mem_cons_self _ _, h.trans hm⟩
    · exact Or.inr ⟨r', List.mem_cons_of_mem _ hr', h⟩

/-- C5 (amended): for every per-member report whose matched records all
lie at or before the current week's end, the generated buckets are
7 days each from a Friday midnight to the following Thursday
23:59:59.999999, consecutive buckets (latest first) are exactly one week
apart (contiguous and non-overlapping), some bucket ends exactly at the
current week's end, and every matched record's instant falls within
exactly one bucket's `[start, stop]` range. -/
theorem c5_weekly_buckets (rows : List LedgerRow) (identifier : String) (now : Int)
    (weeks : List WeekBucket)
    (hw : build_user_weeks rows identifier now = some weeks)
    (hall : ∀ dt ∈ user_instants rows identifier now, dt ≤ (get_bd_week_range now).2) :
    (∀ w ∈ weeks, w.start % usPerDay = 0 ∧ pyWeekday w.start = 4
        ∧ w.stop = w.start + 7 * usPerDay - 1)
    ∧ List.Chain' (fun a b : WeekBucket => a.start = b.start + 7 * usPerDay) weeks
    ∧ (∃ w ∈ weeks, w.stop = (get_bd_week_range now).2)
    ∧ (∀ dt ∈ user_instants rows identifier now,
        (bucketsContaining weeks dt).length = 1) := by
  rw [build_user_weeks] at hw
  split at hw
  · cases hw
  · split at hw
    · cases hw
    · rename_i r0 rs hrecs
      injection hw with hw
      subst hw
      set oldest := rs.foldl (fun a r => min a r.1) r0.1 with holddef
      set s := (get_bd_week_range oldest).1 with hsdef
      set e := (get_bd_week_range now).2 with hedef
      set fuelN := ((e - s) / (7 * usPerDay) + 1).toNat with hfueldef
      have hss : (((r0 :: rs).foldl assignRecord
            ((week_ranges s e).reverse.map fun p => WeekBucket.mk p.1 p.2 [] 0)).map
              fun w => (w.start, w.stop))
          = (week_ranges s e).reverse := by
        rw [foldl_assign_startStops, List.map_map]
        have hid : ((fun w : WeekBucket => (w.start, w.stop))
            ∘ fun p : Int × Int => WeekBucket.mk p.1 p.2 [] 0) = id := by
          funext p
          exact Prod.mk.eta
        rw [hid, List.map_id]
      have hrecinst : ∀ rec ∈ (r0 :: rs), rec.1 ∈ user_instants rows identifier now := by
        intro rec hrec
        rw [← hrecs] at hrec
        have hmem := (List.perm_insertionSort _ _).mem_iff.mp hrec
        obtain ⟨r, hr, hre⟩ := List.mem_map.mp hmem
        exact List.mem_map.mpr ⟨r, hr, by rw [← hre]⟩
      have hinst : ∀ dt ∈ user_instants rows identifier now, ∃ rec ∈ (r0 :: rs), rec.1 = dt := by
        intro dt hdt
        obtain ⟨r, hr, hrdt⟩ := List.mem_map.mp hdt
        have hmem : (to_bd_datetime (r.Date.getD "nan") (r.Time.getD "nan") now,
            r.Amount, r.howSaved.getD "") ∈ sortedUserRecords rows identifier now :=
          (List.perm_insertionSort _ _).mem_iff.mpr (List.mem_map.mpr ⟨r, hr, rfl⟩)
        rw [hrecs] at hmem
        exact ⟨_, hmem, hrdt⟩
      have hold : ∀ rec ∈ (r0 :: rs), oldest ≤ rec.1 := by
        intro rec hrec
        rcases List.mem_cons.mp hrec with he | hm
        · rw [he]
          exact (foldl_min_le rs r0.1).1
        · exact (foldl_min_le rs r0.1).2 rec hm
      have holde : oldest ≤ e := by
        rcases foldl_min_mem rs r0.1 with h | ⟨r', hr', h⟩
        · rw [holddef, h]
          exact hall r0.1 (hrecinst r0 (List.mem_cons_self _ _))
        · rw [holddef, h]
          exact hall r'.1 (hrecinst r' (List.mem_cons_of_mem _ hr'))
      have hs0 : s % usPerDay = 0 := (get_bd_week_range_facts oldest).1
      have hs4 : pyWeekday s = 4 := (get_bd_week_range_facts oldest).2.1
      have hsold : s ≤ oldest := (get_bd_week_range_facts oldest).2.2.2.1
      have hse : s ≤ e := hsold.trans holde
      have hfuel : e < s + 7 * usPerDay * (fuelN : Int) := by
        rw [hfueldef, Int.toNat_of_nonneg (by simp only [usPerDay] at *; omega)]
        simp only [usPerDay] at *
        omega
      have hwr : week_ranges s e = weekRangesAux fuelN s e := rfl
      refine ⟨?_, ?_, ?_, ?_⟩
      · intro w hwmem
        have hp : (w.start, w.stop) ∈ (week_ranges s e).reverse := by
          rw [← hss]
          exact List.mem_map.mpr ⟨w, hwmem, rfl⟩
        rw [List.mem_reverse, hwr] at hp
        obtain ⟨hc1, hc2, hc3, hc4, hc5⟩ := weekRangesAux_mem fuelN s e hs0 _ hp
        refine ⟨hc2, ?_, hc4⟩
        simp only [pyWeekday, usPerDay] at *
        omega
      · have hch := weekRangesAux_chain fuelN s e
        rw [← hwr] at hch
        have hrev : List.Chain' (fun a b : Int × Int => a.1 = b.1 + 7 * usPerDay)
            (week_ranges s e).reverse := by
          rw [List.chain'_reverse]
          exact hch
        rw [← hss] at hrev
        exact (List.chain'_map (fun w : WeekBucket => (w.start, w.stop))).mp hrev
      · have hdiv : (e + 1 - s) % (7 * usPerDay) = 0 := week_align oldest now
        obtain ⟨p, hp, hpe⟩ := weekRangesAux_last fuelN s e hs0 hse hfuel hdiv
        rw [← hwr] at hp
        have hp' : p ∈ (week_ranges s e).reverse := List.mem_reverse.mpr hp
        rw [← hss] at hp'
        obtain ⟨w, hwmem, hwp⟩ := List.mem_map.mp hp'
        refine ⟨w, hwmem, ?_⟩
        have : w.stop = p.2 := by rw [← hwp]
        rw [this, hpe]
      · intro dt hdt
        have hsdt : s ≤ dt := by
          obtain ⟨rec, hrec, hrdt⟩ := hinst dt hdt
          rw [← hrdt]
          exact hsold.trans (hold rec hrec)
        have hdte : dt ≤ e := hall dt hdt
        have hcount := weekRangesAux_count fuelN s e dt hs0 hsdt hdte hfuel
        unfold bucketsContaining
        rw [← List.countP_eq_length_filter]
        have hfac : (fun w : WeekBucket => decide (w.start ≤ dt) && decide (dt ≤ w.stop))
            = (fun p : Int × Int => decide (p.1 ≤ dt) && decide (dt ≤ p.2))
              ∘ (fun w : WeekBucket => (w.start, w.stop)) := rfl
        rw [hfac, ← List.countP_map, hss, List.countP_eq_length_filter,
          List.filter_reverse, List.length_reverse, hwr]
        exact hcount

/-- C5 counterexample: with the current instant still on 1970-01-01, the
bucket set stops at the current week's Thursday end, and the matched
record dated 1970-01-09 falls in no bucket at all — refuting "every
matched record's instant falls within exactly one bucket". -/
theorem c5_counterexample :
    (build_user_weeks c5Rows "Alice" 0).isSome = true
    ∧ (8 * usPerDay) ∈ user_instants c5Rows "Alice" 0
    ∧ (bucketsContaining ((build_user_weeks c5Rows "Alice" 0).getD [])
        (8 * usPerDay)).length = 0 := by
  decide

/-- C5 witness: the amended theorem applied with the current instant on
1970-01-10, so that both records precede the current week's end. -/
theorem c5_weekly_buckets_witness :
    ∃ weeks, build_user_weeks c5Rows "Alice" (9 * usPerDay) = some weeks
      ∧ (∀ w ∈ weeks, w.start % usPerDay = 0 ∧ pyWeekday w.start = 4
          ∧ w.stop = w.start + 7 * usPerDay - 1)
      ∧ (∀ dt ∈ user_instants c5Rows "Alice" (9 * usPerDay),
          (bucketsContaining weeks dt).length = 1) := by
  have h : build_user_weeks c5Rows "Alice" (9 * usPerDay)
      = some ((build_user_weeks c5Rows "Alice" (9 * usPerDay)).getD []) := by decide
  have hc := c5_weekly_buckets c5Rows "Alice" (9 * usPerDay)
    ((build_user_weeks c5Rows "Alice" (9 * usPerDay)).getD []) h (by decide)
  exact ⟨_, h, hc.1, hc.2.2.2⟩

end GhostFund
